import Mathlib

set_option maxRecDepth 100000

/-!
Verification of the Acquisitions API token service (`jwttoken` in the
repository's utils module) against its specification.

The repository code under scrutiny is the `jwttoken` wrapper:

  const JWT_SECRET_KEY = process.env.JWT_SECRET || 'your_default_secret_key';
  const JWT_EXPIRES_IN = '1d';
  export const jwttoken = {
      sign : (payload) => {
          try { return jwt.sign(payload, JWT_SECRET_KEY, {expiresIn: JWT_EXPIRES_IN}); }
          catch (error) {
              logger.error('Failed to authenticate tokern', error);
              throw new Error('Failed to authenticate token'); } },
      verify : (token) => {
          try { return jwt.verify(token, JWT_SECRET_KEY); }
          catch (error) {
              logger.error('Failed to authenticate tokern', error);
              throw new Error('Failed to authenticate token'); } } };

The wrapper delegates to the external `jsonwebtoken` library (compact
three-part dot-separated token, HMAC-SHA256 signature, `iat`/`exp` claims).
The library is not part of the repository, so it is modelled here from the
specification's description of the token wire format and temporal checks
("three-part, dot-separated ... (header, payload, signature)",
"checks that the current time is before the embedded expiry") together with
the library's documented claim-stamping behaviour (`expiresIn` conflicts
with a payload-supplied `exp`; a numeric payload-supplied `iat` is used as
the timestamp basis).  The HMAC primitive is modelled symbolically as an
injective, collision-free keyed encoding, the idealisation under which the
specification's tamper-rejection and wrong-key-rejection properties are
stated.
-/

namespace Acq

/-- JSON-style claim values as they occur in the claims payloads of this
service (string- and integer-valued claims, such as `role` and `userId`). -/
inductive JVal where
  | str : String → JVal
  | num : Int → JVal
deriving DecidableEq, Repr

/-- A claims payload: an ordered mapping of claim names to values, as a JS
object is an ordered collection of key/value pairs. -/
abbrev Payload := List (String × JVal)

/-! ### An injective character-level codec for payload segments

The real library serialises the payload object to JSON and base64url-encodes
it.  The model uses an explicit binary/length-prefixed codec with the same
essential properties: it is injective (decode of encode is the identity) and
its output never contains the `.` separator character. -/

/-- Fuelled worker for `encBits`; structural recursion on the fuel keeps
the definition kernel-reducible.  Fuel `n` always suffices for input `n`. -/
def encBitsF : Nat → Nat → List Char
  | _, 0 => []
  | 0, _ + 1 => []
  | fuel + 1, n + 1 =>
    (if (n + 1) % 2 = 1 then '1' else '0') :: encBitsF fuel ((n + 1) / 2)

/-- Little-endian binary digits of a natural number (empty for `0`). -/
def encBits (n : Nat) : List Char := encBitsF n n

/-- Encoding of a natural number: binary digits terminated by `;`. -/
def encNatC (n : Nat) : List Char := encBits n ++ [';']

/-- Decoder worker for `encNatC`: accumulates bit values until the `;`
terminator, returning the decoded number and the remaining input. -/
def decNatAux : List Char → Nat → Nat → Option (Nat × List Char)
  | [], _, _ => none
  | c :: rest, acc, pw =>
    if c = ';' then some (acc, rest)
    else if c = '0' then decNatAux rest acc (2 * pw)
    else if c = '1' then decNatAux rest (acc + pw) (2 * pw)
    else none

/-- Decoder for `encNatC`. -/
def decNatC (l : List Char) : Option (Nat × List Char) := decNatAux l 0 1

/-- Each character of a chunk is encoded as its code point. -/
def encChars : List Char → List Char
  | [] => []
  | c :: cs => encNatC c.toNat ++ encChars cs

/-- A chunk (arbitrary character list) is encoded as its length followed by
its characters' code points. -/
def encChunk (l : List Char) : List Char := encNatC l.length ++ encChars l

/-- Decode `k` characters encoded by `encChars`. -/
def decChars : Nat → List Char → Option (List Char × List Char)
  | 0, r => some ([], r)
  | k + 1, r =>
    (decNatC r).bind fun p =>
      (decChars k p.2).bind fun q => some (Char.ofNat p.1 :: q.1, q.2)

/-- Decoder for `encChunk`. -/
def decChunk (l : List Char) : Option (List Char × List Char) :=
  (decNatC l).bind fun p => decChars p.1 p.2

theorem decNatAux_encBitsF : ∀ (fuel n : Nat), n ≤ fuel →
    ∀ (acc pw : Nat) (rest : List Char),
    decNatAux (encBitsF fuel n ++ ';' :: rest) acc pw = some (acc + pw * n, rest) := by
  intro fuel
  induction fuel with
  | zero =>
    intro n hn acc pw rest
    obtain rfl : n = 0 := by omega
    simp [encBitsF, decNatAux]
  | succ fuel ih =>
    intro n hn acc pw rest
    match n with
    | 0 => simp [encBitsF, decNatAux]
    | m + 1 =>
      have hhalf : (m + 1) / 2 ≤ fuel := by omega
      rw [encBitsF]
      by_cases hpar : (m + 1) % 2 = 1
      · rw [if_pos hpar, List.cons_append, decNatAux]
        norm_num
        rw [ih ((m + 1) / 2) hhalf (acc + pw) (2 * pw) rest]
        have harith : acc + pw + 2 * pw * ((m + 1) / 2) = acc + pw * (m + 1) := by
          obtain ⟨k, hk⟩ : ∃ k, m + 1 = 2 * k + 1 := ⟨(m + 1) / 2, by omega⟩
          have hdiv : (m + 1) / 2 = k := by omega
          rw [hdiv, hk]; ring
        rw [harith, if_neg (by decide : ¬ ('1' : Char) = ';'),
          if_neg (by decide : ¬ ('1' : Char) = '0')]
      · rw [if_neg hpar, List.cons_append, decNatAux]
        norm_num
        rw [ih ((m + 1) / 2) hhalf acc (2 * pw) rest]
        have harith : acc + 2 * pw * ((m + 1) / 2) = acc + pw * (m + 1) := by
          obtain ⟨k, hk⟩ : ∃ k, m + 1 = 2 * k := ⟨(m + 1) / 2, by omega⟩
          have hdiv : (m + 1) / 2 = k := by omega
          rw [hdiv, hk]; ring
        rw [harith, if_neg (by decide : ¬ ('0' : Char) = ';')]

theorem decNatAux_encBits (n : Nat) : ∀ (acc pw : Nat) (rest : List Char),
    decNatAux (encBits n ++ ';' :: rest) acc pw = some (acc + pw * n, rest) :=
  decNatAux_encBitsF n n (Nat.le_refl n)

theorem decNatC_encNatC (n : Nat) (rest : List Char) :
    decNatC (encNatC n ++ rest) = some (n, rest) := by
  unfold decNatC encNatC
  rw [List.append_assoc, List.singleton_append, decNatAux_encBits]
  simp

theorem decChars_encChars (l : List Char) : ∀ (rest : List Char),
    decChars l.length (encChars l ++ rest) = some (l, rest) := by
  induction l with
  | nil => intro rest; simp [encChars, decChars]
  | cons c cs ih =>
    intro rest
    simp only [encChars, List.length_cons, List.append_assoc, decChars]
    rw [decNatC_encNatC]
    simp [ih rest]

theorem decChunk_encChunk (l : List Char) (rest : List Char) :
    decChunk (encChunk l ++ rest) = some (l, rest) := by
  unfold decChunk encChunk
  rw [List.append_assoc, decNatC_encNatC]
  simp [decChars_encChars]

/-- Encoding of a claim value: a tag character followed by the value. -/
def encJVal : JVal → List Char
  | .str s => 'S' :: encChunk s.data
  | .num n => 'N' :: (if n < 0 then '-' else '+') :: encNatC n.natAbs

/-- Decoder for `encJVal`. -/
def decJVal : List Char → Option (JVal × List Char)
  | 'S' :: r => (decChunk r).bind fun p => some (.str ⟨p.1⟩, p.2)
  | 'N' :: sgn :: r =>
    (decNatC r).bind fun p =>
      if sgn = '-' then some (.num (-(p.1 : Int)), p.2)
      else if sgn = '+' then some (.num (p.1 : Int), p.2)
      else none
  | _ => none

/-- Encoding of one claim entry: the key chunk followed by the value. -/
def encEntry (e : String × JVal) : List Char := encChunk e.1.data ++ encJVal e.2

/-- Encoding of a list of claim entries. -/
def encEntries : Payload → List Char
  | [] => []
  | e :: es => encEntry e ++ encEntries es

/-- Decoder for one claim entry. -/
def decEntry (l : List Char) : Option ((String × JVal) × List Char) :=
  (decChunk l).bind fun p =>
    (decJVal p.2).bind fun q => some ((⟨p.1⟩, q.1), q.2)

/-- Decode `k` claim entries. -/
def decEntries : Nat → List Char → Option (Payload × List Char)
  | 0, r => some ([], r)
  | k + 1, r =>
    (decEntry r).bind fun p =>
      (decEntries k p.2).bind fun q => some (p.1 :: q.1, q.2)

/-- Encoding of a whole claims payload: its entry count then its entries;
this models the JSON-object serialisation of the payload. -/
def encPayloadC (p : Payload) : List Char := encNatC p.length ++ encEntries p

/-- Decoder for `encPayloadC`, also returning unconsumed input. -/
def decPayloadC (l : List Char) : Option (Payload × List Char) :=
  (decNatC l).bind fun p => decEntries p.1 p.2

theorem decJVal_encJVal (v : JVal) (rest : List Char) :
    decJVal (encJVal v ++ rest) = some (v, rest) := by
  cases v with
  | str s =>
    simp only [encJVal, List.cons_append, decJVal]
    rw [decChunk_encChunk]
    simp
  | num n =>
    by_cases hn : n < 0
    · simp only [encJVal, if_pos hn, List.cons_append, decJVal]
      rw [decNatC_encNatC]
      simp only [Option.some_bind]
      rw [if_pos trivial]
      have habs : (-(n.natAbs : Int)) = n := by omega
      rw [habs]
    · simp only [encJVal, if_neg hn, List.cons_append, decJVal]
      rw [decNatC_encNatC]
      simp only [Option.some_bind]
      have habs : ((n.natAbs : Int)) = n := by omega
      rw [habs, if_neg (by decide : ¬ ('+' : Char) = '-'), if_pos trivial]

theorem decEntry_encEntry (e : String × JVal) (rest : List Char) :
    decEntry (encEntry e ++ rest) = some (e, rest) := by
  obtain ⟨k, v⟩ := e
  simp only [encEntry, List.append_assoc, decEntry]
  rw [decChunk_encChunk]
  simp [decJVal_encJVal]

theorem decEntries_encEntries (p : Payload) : ∀ (rest : List Char),
    decEntries p.length (encEntries p ++ rest) = some (p, rest) := by
  induction p with
  | nil => intro rest; simp [encEntries, decEntries]
  | cons e es ih =>
    intro rest
    simp only [encEntries, List.length_cons, List.append_assoc, decEntries]
    rw [decEntry_encEntry]
    simp [ih rest]

theorem decPayloadC_encPayloadC (p : Payload) (rest : List Char) :
    decPayloadC (encPayloadC p ++ rest) = some (p, rest) := by
  unfold decPayloadC encPayloadC
  rw [List.append_assoc, decNatC_encNatC]
  simp [decEntries_encEntries]

/-! ### The encoders never emit the `.` separator -/

theorem dot_not_mem_encBitsF : ∀ (fuel n : Nat), '.' ∉ encBitsF fuel n := by
  intro fuel
  induction fuel with
  | zero =>
    intro n
    match n with
    | 0 => simp [encBitsF]
    | m + 1 => simp [encBitsF]
  | succ fuel ih =>
    intro n
    match n with
    | 0 => simp [encBitsF]
    | m + 1 =>
      rw [encBitsF]
      intro hmem
      rcases List.mem_cons.mp hmem with h | h
      · revert h
        by_cases hpar : (m + 1) % 2 = 1 <;> simp [hpar]
      · exact ih ((m + 1) / 2) h

theorem dot_not_mem_encBits (n : Nat) : '.' ∉ encBits n :=
  dot_not_mem_encBitsF n n

theorem dot_not_mem_encNatC (n : Nat) : '.' ∉ encNatC n := by
  unfold encNatC
  intro hmem
  rcases List.mem_append.mp hmem with h | h
  · exact dot_not_mem_encBits n h
  · simp at h

theorem dot_not_mem_encChars (l : List Char) : '.' ∉ encChars l := by
  induction l with
  | nil => simp [encChars]
  | cons c cs ih =>
    simp only [encChars]
    intro hmem
    rcases List.mem_append.mp hmem with h | h
    · exact dot_not_mem_encNatC c.toNat h
    · exact ih h

theorem dot_not_mem_encChunk (l : List Char) : '.' ∉ encChunk l := by
  unfold encChunk
  intro hmem
  rcases List.mem_append.mp hmem with h | h
  · exact dot_not_mem_encNatC l.length h
  · exact dot_not_mem_encChars l h

theorem dot_not_mem_encJVal (v : JVal) : '.' ∉ encJVal v := by
  cases v with
  | str s =>
    simp only [encJVal]
    intro hmem
    rcases List.mem_cons.mp hmem with h | h
    · simp at h
    · exact dot_not_mem_encChunk s.data h
  | num n =>
    simp only [encJVal]
    intro hmem
    rcases List.mem_cons.mp hmem with h | h
    · simp at h
    · rcases List.mem_cons.mp h with h' | h'
      · revert h'
        by_cases hn : n < 0 <;> simp [hn]
      · exact dot_not_mem_encNatC n.natAbs h'

theorem dot_not_mem_encEntry (e : String × JVal) : '.' ∉ encEntry e := by
  unfold encEntry
  intro hmem
  rcases List.mem_append.mp hmem with h | h
  · exact dot_not_mem_encChunk e.1.data h
  · exact dot_not_mem_encJVal e.2 h

theorem dot_not_mem_encEntries (p : Payload) : '.' ∉ encEntries p := by
  induction p with
  | nil => simp [encEntries]
  | cons e es ih =>
    simp only [encEntries]
    intro hmem
    rcases List.mem_append.mp hmem with h | h
    · exact dot_not_mem_encEntry e h
    · exact ih h

theorem dot_not_mem_encPayloadC (p : Payload) : '.' ∉ encPayloadC p := by
  unfold encPayloadC
  intro hmem
  rcases List.mem_append.mp hmem with h | h
  · exact dot_not_mem_encNatC p.length h
  · exact dot_not_mem_encEntries p h

/-! ### Splitting a token string on the `.` separator -/

/-- Split a character list at every `.`, as `token.split('.')` does in the
library's malformed-token check. -/
def splitDots : List Char → List (List Char)
  | [] => [[]]
  | c :: rest =>
    if c = '.' then [] :: splitDots rest
    else
      match splitDots rest with
      | [] => [[c]]
      | g :: gs => (c :: g) :: gs

theorem splitDots_ne_nil (l : List Char) : splitDots l ≠ [] := by
  cases l with
  | nil => simp [splitDots]
  | cons c rest =>
    rw [splitDots]
    by_cases h : c = '.'
    · simp [h]
    · simp only [h, if_false]
      cases splitDots rest <;> simp

theorem splitDots_no_dot (l : List Char) (h : '.' ∉ l) : splitDots l = [l] := by
  induction l with
  | nil => simp [splitDots]
  | cons c rest ih =>
    rw [splitDots]
    have hc : ¬ c = '.' := fun hc => h (hc ▸ List.mem_cons_self c rest)
    have hrest : '.' ∉ rest := fun hr => h (List.mem_cons_of_mem c hr)
    rw [ih hrest]
    simp [hc]

theorem splitDots_append (a r : List Char) (h : '.' ∉ a) :
    splitDots (a ++ '.' :: r) = a :: splitDots r := by
  induction a with
  | nil => simp [splitDots]
  | cons c rest ih =>
    have hc : ¬ c = '.' := fun hc => h (hc ▸ List.mem_cons_self c rest)
    have hrest : '.' ∉ rest := fun hr => h (List.mem_cons_of_mem c hr)
    rw [List.cons_append, splitDots, if_neg hc, ih hrest]

/-! ### Model of the `jsonwebtoken` library

The library (`jwt.sign` / `jwt.verify`) is external to the repository; the
model below follows the specification's description of the wire format and
temporal semantics and the library's documented claim-stamping rules.
Timestamps are integer Unix seconds. -/

/-- Internal error causes the library can raise; the repository's wrapper
catches every one of them. -/
inductive JwtError where
  | expConflict
  | malformed
  | invalidSignature
  | expired
deriving DecidableEq, Repr

/-- Modelled from the spec: the HMAC-SHA256 signature primitive of the
underlying library is not repository code; it is modelled symbolically as an
injective keyed encoding whose output never contains the `.` separator.
Injectivity in the key and in the message is the perfect-cryptography
idealisation under which the spec states its tamper-rejection and
wrong-key-rejection properties. -/
def hmacModel (key msg : List Char) : List Char := encChunk key ++ encChunk msg

theorem dot_not_mem_hmacModel (key msg : List Char) : '.' ∉ hmacModel key msg := by
  unfold hmacModel
  intro hmem
  rcases List.mem_append.mp hmem with h | h
  · exact dot_not_mem_encChunk key h
  · exact dot_not_mem_encChunk msg h

theorem hmacModel_key_injective (k1 k2 msg : List Char)
    (h : hmacModel k1 msg = hmacModel k2 msg) : k1 = k2 := by
  have h1 := decChunk_encChunk k1 (encChunk msg)
  have h2 := decChunk_encChunk k2 (encChunk msg)
  have hd : decChunk (encChunk k1 ++ encChunk msg)
      = decChunk (encChunk k2 ++ encChunk msg) := by
    show decChunk (hmacModel k1 msg) = decChunk (hmacModel k2 msg)
    rw [h]
  rw [h1, h2] at hd
  simp only [Option.some.injEq, Prod.mk.injEq] at hd
  exact hd.1

/-- The fixed protected header segment (`{"alg":"HS256","typ":"JWT"}` in the
real wire format); a constant, `.`-free segment in the model. -/
def headerSeg : List Char := ['H', 'S', '2', '5', '6']

/-- Timestamp basis used by the library when stamping claims: a truthy
numeric `iat` supplied in the payload is used as the base for `iat`/`exp`,
otherwise the current clock is (documented `jsonwebtoken` behaviour;
`iat = 0` is falsy in JS, so it falls back to the clock). -/
def iatBasis (now : Int) (p : Payload) : Int :=
  match p.lookup "iat" with
  | some (.num n) => if n = 0 then now else n
  | _ => now

/-- The claims object the library embeds in the token: the caller's claims
with `iat` stamped (in place if a numeric `iat` key was supplied, appended
otherwise) and `exp = iat + expiresIn` appended. -/
def wireClaims (now expSecs : Int) (p : Payload) : Payload :=
  let b := iatBasis now p
  (if (p.lookup "iat").isSome then
      p.map fun kv => if kv.1 = "iat" then ("iat", JVal.num b) else kv
    else p ++ [("iat", JVal.num b)]) ++ [("exp", JVal.num (b + expSecs))]

/-- Model of `jwt.sign(payload, secret, {expiresIn})`: refuses a payload
that already carries an `exp` claim (the documented conflict with the
`expiresIn` option), otherwise emits `header.claims.signature` where the
signature is the keyed MAC of the first two segments. -/
def jwtSign (secret : List Char) (now expSecs : Int) (p : Payload) :
    Except JwtError (List Char) :=
  if (p.lookup "exp").isSome then .error .expConflict
  else
    let body := headerSeg ++ '.' :: encPayloadC (wireClaims now expSecs p)
    .ok (body ++ '.' :: hmacModel secret body)

/-- Model of `jwt.verify(token, secret)`: requires exactly three
dot-separated segments, a matching header, a signature equal to the
recomputed MAC of the first two segments, a decodable claims segment, and
(when an `exp` claim is embedded) a clock strictly before the expiry
("checks that the current time is before the embedded expiry"). -/
def jwtVerify (secret : List Char) (now : Int) (tok : List Char) :
    Except JwtError Payload :=
  match splitDots tok with
  | [h, pl, sg] =>
    if h = headerSeg then
      if sg = hmacModel secret (h ++ '.' :: pl) then
        match decPayloadC pl with
        | some (p, []) =>
          match p.lookup "exp" with
          | some (.num e) => if e ≤ now then .error .expired else .ok p
          | _ => .ok p
        | _ => .error .malformed
      else .error .invalidSignature
    else .error .invalidSignature
  | _ => .error .malformed

/-! ### The repository's `jwttoken` wrapper (`src` utils module)

This is the direct translation of the repository source quoted in the file
header.  A wrapper call returns the operation's result together with the
list of log entries the call emits; a thrown `new Error(msg)` is an
`Except.error` carrying an `AppError` whose only field is the message
(a plain JS `Error` constructed from a message string carries no cause). -/

/-- Translation of `process.env.JWT_SECRET || 'your_default_secret_key'`:
the env value when present and truthy (a JS empty string is falsy), else
the hardcoded default. -/
def JWT_SECRET_KEY (envJwtSecret : Option String) : String :=
  match envJwtSecret with
  | some s => if s = "" then "your_default_secret_key" else s
  | none => "your_default_secret_key"

/-- Translation of `JWT_EXPIRES_IN = '1d'`, in seconds. -/
def JWT_EXPIRES_IN : Int := 86400

/-- The process-wide configuration captured at module load. -/
structure Config where
  secret : List Char
deriving DecidableEq

/-- Configuration resulting from a given environment. -/
def mkConfig (envJwtSecret : Option String) : Config :=
  ⟨(JWT_SECRET_KEY envJwtSecret).data⟩

/-- A surfaced error value: `new Error('Failed to authenticate token')` has
a message and nothing else (no cause field). -/
structure AppError where
  message : String
deriving DecidableEq, Repr

/-- One structured log line: `logger.error(staticMessage, cause)`. -/
structure LogEntry where
  level : String
  message : String
  cause : JwtError
deriving DecidableEq, Repr

/-- The error value both wrapper operations throw. -/
def authFailError : AppError := ⟨"Failed to authenticate token"⟩

/-- The static log message both wrapper operations emit (the source's
misspelling included). -/
def failLogMsg : String := "Failed to authenticate tokern"

/-- Translation of `jwttoken.sign`: the library result on success; on any
library failure, one error-level log entry then the normalized error. -/
def jwttokenSign (cfg : Config) (now : Int) (payload : Payload) :
    Except AppError (List Char) × List LogEntry :=
  match jwtSign cfg.secret now JWT_EXPIRES_IN payload with
  | .ok tok => (.ok tok, [])
  | .error e => (.error authFailError, [⟨"error", failLogMsg, e⟩])

/-- Translation of `jwttoken.verify`: the library result on success; on any
library failure, one error-level log entry then the normalized error. -/
def jwttokenVerify (cfg : Config) (now : Int) (token : List Char) :
    Except AppError Payload × List LogEntry :=
  match jwtVerify cfg.secret now token with
  | .ok p => (.ok p, [])
  | .error e => (.error authFailError, [⟨"error", failLogMsg, e⟩])

/-! ### Structure of a freshly signed token -/

/-- The signing input (header and claims segments) of a token issued at
`now` for payload `p`. -/
def tokenBody (now : Int) (p : Payload) : List Char :=
  headerSeg ++ '.' :: encPayloadC (wireClaims now JWT_EXPIRES_IN p)

/-- The signature segment of a token issued at `now` for payload `p` under
configuration `cfg`. -/
def macSig (cfg : Config) (now : Int) (p : Payload) : List Char :=
  hmacModel cfg.secret (tokenBody now p)

/-- The complete token `sign` issues at `now` for payload `p`. -/
def signedToken (cfg : Config) (now : Int) (p : Payload) : List Char :=
  tokenBody now p ++ '.' :: macSig cfg now p

theorem lookup_append_of_none {β : Type} (a : String) (l1 l2 : List (String × β))
    (h : l1.lookup a = none) : (l1 ++ l2).lookup a = l2.lookup a := by
  induction l1 with
  | nil => simp
  | cons e es ih =>
    obtain ⟨k, v⟩ := e
    cases hak : a == k with
    | true => simp [List.lookup, hak] at h
    | false =>
      simp only [List.lookup, hak] at h
      simp only [List.cons_append, List.lookup, hak]
      exact ih h

theorem wireClaims_no_iat (now expSecs : Int) (p : Payload)
    (hiat : p.lookup "iat" = none) :
    wireClaims now expSecs p
      = p ++ [("iat", JVal.num now), ("exp", JVal.num (now + expSecs))] := by
  unfold wireClaims iatBasis
  rw [hiat]
  simp

theorem jwttokenSign_ok (cfg : Config) (now : Int) (p : Payload)
    (hexp : p.lookup "exp" = none) :
    jwttokenSign cfg now p = (.ok (signedToken cfg now p), []) := by
  unfold jwttokenSign jwtSign signedToken tokenBody macSig
  rw [hexp]
  rfl

theorem jwtVerify_signedToken (cfg : Config) (now nowV : Int) (p : Payload)
    (hexp : p.lookup "exp" = none) (hiat : p.lookup "iat" = none) :
    jwtVerify cfg.secret nowV (signedToken cfg now p)
      = if now + JWT_EXPIRES_IN ≤ nowV then .error .expired
        else .ok (p ++ [("iat", JVal.num now),
                        ("exp", JVal.num (now + JWT_EXPIRES_IN))]) := by
  have hwc := wireClaims_no_iat now JWT_EXPIRES_IN p hiat
  have hH : '.' ∉ headerSeg := by decide
  have hP := dot_not_mem_encPayloadC (wireClaims now JWT_EXPIRES_IN p)
  have hS : '.' ∉ macSig cfg now p :=
    dot_not_mem_hmacModel cfg.secret (tokenBody now p)
  have hsplit : splitDots (signedToken cfg now p)
      = [headerSeg, encPayloadC (wireClaims now JWT_EXPIRES_IN p), macSig cfg now p] := by
    unfold signedToken tokenBody
    rw [List.append_assoc, List.cons_append,
      splitDots_append _ _ hH, splitDots_append _ _ hP,
      splitDots_no_dot _ hS]
  have hdec : decPayloadC (encPayloadC (wireClaims now JWT_EXPIRES_IN p))
      = some (wireClaims now JWT_EXPIRES_IN p, []) := by
    have := decPayloadC_encPayloadC (wireClaims now JWT_EXPIRES_IN p) []
    rwa [List.append_nil] at this
  have hlook : (wireClaims now JWT_EXPIRES_IN p).lookup "exp"
      = some (JVal.num (now + JWT_EXPIRES_IN)) := by
    rw [hwc, lookup_append_of_none _ _ _ hexp]
    rfl
  unfold jwtVerify
  rw [hsplit]
  have hmacEq : macSig cfg now p
      = hmacModel cfg.secret
          (headerSeg ++ '.' :: encPayloadC (wireClaims now JWT_EXPIRES_IN p)) := rfl
  simp only [hmacEq, hdec, hlook, eq_self_iff_true, if_true]
  rw [hwc]

/-! ### Claim theorems -/

/-- C1 counterexample: the claim's round-trip is quantified over every
serializable claims payload, but the serializable payload `{exp: 0}` makes
`sign` itself throw the normalized error (the library's `expiresIn` option
conflicts with a payload-supplied `exp`), so `verify(sign(C))` returns no
payload at all for this `C`. -/
theorem c1_round_trip_counterexample :
    (jwttokenSign (mkConfig none) 1000 [("exp", JVal.num 0)]).1
      = Except.error authFailError := rfl

/-- C1 (amended): for every claims payload `C` carrying neither an `exp`
nor an `iat` claim, `verify(sign(C))` evaluated strictly within the expiry
window returns `C` extended with the added `iat` and `exp = iat + 86400`
fields; the witness instantiates it at `{userId: 42, role: "user"}`. -/
theorem c1_round_trip (cfg : Config) (now nowV : Int) (p : Payload)
    (hexp : p.lookup "exp" = none) (hiat : p.lookup "iat" = none)
    (hwin : nowV < now + 86400) :
    ∃ tok, (jwttokenSign cfg now p).1 = .ok tok ∧
      (jwttokenVerify cfg nowV tok).1
        = .ok (p ++ [("iat", JVal.num now), ("exp", JVal.num (now + 86400))]) := by
  refine ⟨signedToken cfg now p, by rw [jwttokenSign_ok cfg now p hexp], ?_⟩
  unfold jwttokenVerify
  rw [jwtVerify_signedToken cfg now nowV p hexp hiat,
    if_neg (by simp only [JWT_EXPIRES_IN]; omega)]
  rfl

/-- C1 witness: the spec's concrete scenario, signed and verified at the
same instant under the default configuration. -/
theorem c1_round_trip_witness :
    ∃ tok, (jwttokenSign (mkConfig none) 1000
        [("userId", JVal.num 42), ("role", JVal.str "user")]).1 = .ok tok ∧
      (jwttokenVerify (mkConfig none) 1000 tok).1
        = .ok ([("userId", JVal.num 42), ("role", JVal.str "user")]
            ++ [("iat", JVal.num 1000), ("exp", JVal.num (1000 + 86400))]) :=
  c1_round_trip (mkConfig none) 1000 1000
    [("userId", JVal.num 42), ("role", JVal.str "user")]
    (by decide) (by decide) (by decide)

/-- C2 counterexample: a token signed at `t = 0`, verified exactly at
`t + 1 day = 86400` (a time ≤ t + 1 day, at which the claim says
verification succeeds), is rejected with the normalized error. -/
theorem c2_expiry_counterexample :
    ((86400 : Int) ≤ 0 + 86400)
    ∧ ((jwttokenSign (Config.mk ['k']) 0 []).1).isOk = true
    ∧ (match (jwttokenSign (Config.mk ['k']) 0 []).1 with
       | .ok t => (jwttokenVerify (Config.mk ['k']) 86400 t).1
       | .error e => .error e)
      = .error authFailError :=
  ⟨by decide, rfl, rfl⟩

/-- C2 (amended): every issued token carries `exp` equal to its `iat` plus
exactly 86400 seconds (the fixed, non-configurable policy), and a token
signed at `t` verifies successfully at every time strictly before
`t + 1 day` and fails with the normalized error at every time greater than
or equal to `t + 1 day` (the boundary instant itself is already expired:
the code accepts only times strictly before the embedded expiry). -/
theorem c2_expiry (cfg : Config) (now nowV : Int) (p : Payload)
    (hexp : p.lookup "exp" = none) (hiat : p.lookup "iat" = none) :
    ∃ tok, (jwttokenSign cfg now p).1 = .ok tok ∧
      (nowV < now + 86400 →
        (jwttokenVerify cfg nowV tok).1
          = .ok (p ++ [("iat", JVal.num now), ("exp", JVal.num (now + 86400))])) ∧
      (now + 86400 ≤ nowV →
        (jwttokenVerify cfg nowV tok).1 = .error authFailError) := by
  refine ⟨signedToken cfg now p, by rw [jwttokenSign_ok cfg now p hexp], ?_, ?_⟩
  · intro h
    unfold jwttokenVerify
    rw [jwtVerify_signedToken cfg now nowV p hexp hiat,
      if_neg (by simp only [JWT_EXPIRES_IN]; omega)]
    rfl
  · intro h
    unfold jwttokenVerify
    rw [jwtVerify_signedToken cfg now nowV p hexp hiat,
      if_pos (by simp only [JWT_EXPIRES_IN]; omega)]

/-- C2 witness: the expiry behaviour at concrete instants for a token
signed at `t = 0` under the default configuration. -/
theorem c2_expiry_witness :
    ∃ tok, (jwttokenSign (mkConfig none) 0 []).1 = .ok tok ∧
      ((0 : Int) < 0 + 86400 →
        (jwttokenVerify (mkConfig none) 0 tok).1
          = .ok ([] ++ [("iat", JVal.num 0), ("exp", JVal.num (0 + 86400))])) ∧
      ((0 : Int) + 86400 ≤ 0 →
        (jwttokenVerify (mkConfig none) 0 tok).1 = .error authFailError) :=
  c2_expiry (mkConfig none) 0 0 [] (by decide) (by decide)

/-- C7: with no secret supplied by the environment, the configuration falls
back to the fixed hardcoded default secret string, and signing followed by
verification still operates symmetrically under that default. -/
theorem c7_default_secret (now nowV : Int) (p : Payload)
    (hexp : p.lookup "exp" = none) (hiat : p.lookup "iat" = none)
    (hwin : nowV < now + 86400) :
    (mkConfig none).secret = "your_default_secret_key".data ∧
    ∃ tok, (jwttokenSign (mkConfig none) now p).1 = .ok tok ∧
      ((jwttokenVerify (mkConfig none) nowV tok).1).isOk = true := by
  refine ⟨rfl, signedToken (mkConfig none) now p,
    by rw [jwttokenSign_ok _ now p hexp], ?_⟩
  unfold jwttokenVerify
  rw [jwtVerify_signedToken _ now nowV p hexp hiat,
    if_neg (by simp only [JWT_EXPIRES_IN]; omega)]
  rfl

/-- C7 witness: concrete round trip under the default secret. -/
theorem c7_default_secret_witness :
    (mkConfig none).secret = "your_default_secret_key".data ∧
    ∃ tok, (jwttokenSign (mkConfig none) 5 [("role", JVal.str "user")]).1 = .ok tok ∧
      ((jwttokenVerify (mkConfig none) 5 tok).1).isOk = true :=
  c7_default_secret 5 5 [("role", JVal.str "user")] (by decide) (by decide) (by decide)

/-- C9: for every claims payload already containing an `exp` claim, `sign`
does not produce a token: the library's conflict between the fixed
`expiresIn` option and a payload-supplied `exp` is caught by the wrapper,
which throws its normalized error instead of returning a token string. -/
theorem c9_payload_exp_rejected (cfg : Config) (now : Int) (p : Payload)
    (h : (p.lookup "exp").isSome = true) :
    (jwttokenSign cfg now p).1 = .error authFailError := by
  unfold jwttokenSign jwtSign
  rw [if_pos h]

/-- C9 witness: a concrete payload carrying `exp` is rejected by `sign`. -/
theorem c9_payload_exp_rejected_witness :
    (jwttokenSign (mkConfig none) 7 [("userId", JVal.num 1), ("exp", JVal.num 99)]).1
      = Except.error authFailError :=
  c9_payload_exp_rejected (mkConfig none) 7
    [("userId", JVal.num 1), ("exp", JVal.num 99)] (by decide)

/-! ### Rejection lemmas for tampered and wrongly-keyed tokens -/

theorem jwtVerify_bad_sig (secret : List Char) (now : Int) (P S : List Char)
    (hP : '.' ∉ P) (hS : '.' ∉ S)
    (hne : S ≠ hmacModel secret (headerSeg ++ '.' :: P)) :
    jwtVerify secret now ((headerSeg ++ '.' :: P) ++ '.' :: S)
      = .error .invalidSignature := by
  have hH : '.' ∉ headerSeg := by decide
  have hsplit : splitDots ((headerSeg ++ '.' :: P) ++ '.' :: S)
      = [headerSeg, P, S] := by
    rw [List.append_assoc, List.cons_append, splitDots_append _ _ hH,
      splitDots_append _ _ hP, splitDots_no_dot _ hS]
  unfold jwtVerify
  rw [hsplit]
  simp only [eq_self_iff_true, if_true, if_neg hne]

theorem jwtVerify_four_segments (secret : List Char) (now : Int)
    (P T1 T2 : List Char) (hP : '.' ∉ P) (hT1 : '.' ∉ T1) :
    jwtVerify secret now ((headerSeg ++ '.' :: P) ++ '.' :: (T1 ++ '.' :: T2))
      = .error .malformed := by
  have hH : '.' ∉ headerSeg := by decide
  have hsplit : splitDots ((headerSeg ++ '.' :: P) ++ '.' :: (T1 ++ '.' :: T2))
      = headerSeg :: P :: T1 :: splitDots T2 := by
    rw [List.append_assoc, List.cons_append, splitDots_append _ _ hH,
      splitDots_append _ _ hP, splitDots_append _ _ hT1]
  obtain ⟨g, gs, hgs⟩ : ∃ g gs, splitDots T2 = g :: gs := by
    cases hx : splitDots T2 with
    | nil => exact absurd hx (splitDots_ne_nil T2)
    | cons a b => exact ⟨a, b, rfl⟩
  unfold jwtVerify
  rw [hsplit, hgs]

theorem jwttokenVerify_of_jwtVerify_error (cfg : Config) (now : Int)
    (tok : List Char) (e : JwtError)
    (h : jwtVerify cfg.secret now tok = .error e) :
    jwttokenVerify cfg now tok
      = (.error authFailError, [⟨"error", failLogMsg, e⟩]) := by
  unfold jwttokenVerify
  rw [h]

/-- C4: every token produced by `sign` is its signing input followed by a
dot and its signature segment, and flipping any single character of the
signature segment (to any different character, including to a `.`) yields a
string that `verify` rejects with the normalized error. -/
theorem c4_tamper_rejection (cfg : Config) (now nowV : Int) (p : Payload)
    (hexp : p.lookup "exp" = none)
    (i : Nat) (c : Char)
    (hi : i < (macSig cfg now p).length)
    (hc : c ≠ (macSig cfg now p).getD i ' ') :
    (jwttokenSign cfg now p).1 = .ok (tokenBody now p ++ '.' :: macSig cfg now p) ∧
    ((jwttokenVerify cfg nowV
        (tokenBody now p ++ '.' :: (macSig cfg now p).set i c)).1
      = .error authFailError) := by
  have hS : '.' ∉ macSig cfg now p :=
    dot_not_mem_hmacModel cfg.secret (tokenBody now p)
  have hP := dot_not_mem_encPayloadC (wireClaims now JWT_EXPIRES_IN p)
  constructor
  · rw [jwttokenSign_ok cfg now p hexp]
    rfl
  · by_cases hdot : c = '.'
    · subst hdot
      have hset := List.set_eq_take_cons_drop '.' (n := i) (l := macSig cfg now p) hi
      rw [hset]
      have hT1 : '.' ∉ (macSig cfg now p).take i :=
        fun hmem => hS (List.take_subset i (macSig cfg now p) hmem)
      unfold tokenBody
      rw [jwttokenVerify_of_jwtVerify_error cfg nowV _ JwtError.malformed
        (jwtVerify_four_segments cfg.secret nowV _ _ _ hP hT1)]
    · have hS' : '.' ∉ (macSig cfg now p).set i c := by
        intro hmem
        rcases List.mem_or_eq_of_mem_set hmem with h | h
        · exact hS h
        · exact hdot h.symm
      have hne : (macSig cfg now p).set i c
          ≠ hmacModel cfg.secret (headerSeg ++ '.'
              :: encPayloadC (wireClaims now JWT_EXPIRES_IN p)) := by
        intro heq
        apply hc
        have h1 : ((macSig cfg now p).set i c).getD i ' ' = c := by
          rw [List.getD_eq_getElem?_getD, List.getElem?_set_self hi]
          rfl
        have heq' : (macSig cfg now p).set i c = macSig cfg now p := heq
        rw [heq'] at h1
        rw [← h1]
      unfold tokenBody
      rw [jwttokenVerify_of_jwtVerify_error cfg nowV _ JwtError.invalidSignature
        (jwtVerify_bad_sig cfg.secret nowV _ _ hP hS' hne)]

/-- C4 witness: a concrete flip of the first signature character of a
concretely signed token is rejected. -/
theorem c4_tamper_rejection_witness :
    (jwttokenSign (Config.mk ['k']) 0 []).1
      = .ok (tokenBody 0 [] ++ '.' :: macSig (Config.mk ['k']) 0 []) ∧
    ((jwttokenVerify (Config.mk ['k']) 0
        (tokenBody 0 [] ++ '.' :: (macSig (Config.mk ['k']) 0 []).set 0 'z')).1
      = .error authFailError) :=
  c4_tamper_rejection (Config.mk ['k']) 0 0 [] (by decide) 0 'z'
    (by decide) (by decide)

theorem jwtVerify_signedToken_wrong_secret (sv : List Char) (cfg : Config)
    (now nowV : Int) (p : Payload) (hne : sv ≠ cfg.secret) :
    jwtVerify sv nowV (signedToken cfg now p) = .error .invalidSignature := by
  have hP := dot_not_mem_encPayloadC (wireClaims now JWT_EXPIRES_IN p)
  have hS : '.' ∉ macSig cfg now p :=
    dot_not_mem_hmacModel cfg.secret (tokenBody now p)
  apply jwtVerify_bad_sig sv nowV _ _ hP hS
  intro heq
  exact hne (hmacModel_key_injective cfg.secret sv (tokenBody now p) heq).symm

/-- C5: a token signed under secret `S1` is rejected (with the normalized
error) by a service configured with any different secret `S2`. -/
theorem c5_wrong_key_rejection (s1 s2 : String) (now nowV : Int)
    (p : Payload) (tok : List Char)
    (hne : s1 ≠ s2)
    (hok : (jwttokenSign (Config.mk s1.data) now p).1 = .ok tok) :
    (jwttokenVerify (Config.mk s2.data) nowV tok).1 = .error authFailError := by
  have hexp : p.lookup "exp" = none := by
    cases hx : p.lookup "exp" with
    | none => rfl
    | some v =>
      rw [show jwttokenSign (Config.mk s1.data) now p
          = (.error authFailError,
             [⟨"error", failLogMsg, JwtError.expConflict⟩]) from by
        unfold jwttokenSign jwtSign
        rw [if_pos (by rw [hx]; rfl)]] at hok
      exact absurd hok (by simp)
  rw [jwttokenSign_ok (Config.mk s1.data) now p hexp] at hok
  have htok : tok = signedToken (Config.mk s1.data) now p := by
    simpa using hok.symm
  subst htok
  have hds : s2.data ≠ (Config.mk s1.data).secret := by
    intro h
    exact hne (congrArg String.mk h).symm
  rw [jwttokenVerify_of_jwtVerify_error _ nowV _ JwtError.invalidSignature
    (jwtVerify_signedToken_wrong_secret s2.data (Config.mk s1.data) now nowV p hds)]

/-- C5 witness: a token signed under the secret "s1" is rejected under the
secret "s2". -/
theorem c5_wrong_key_rejection_witness :
    (jwttokenVerify (Config.mk "b".data) 0
      (signedToken (Config.mk "a".data) 0 [])).1 = .error authFailError :=
  c5_wrong_key_rejection "a" "b" 0 0 [] (signedToken (Config.mk "a".data) 0 [])
    (by decide) (by rw [jwttokenSign_ok _ 0 [] (by decide)])

/-! ### Error normalization and the logging contract -/

/-- C3 counterexample: a failing `sign` and a failing `verify` surface the
very same error value (a plain `Error` with the one fixed message), so the
two advertised error kinds are not distinguishable by the caller. -/
theorem c3_error_kinds_counterexample :
    (jwttokenSign (mkConfig none) 0 [("exp", JVal.num 0)]).1
      = Except.error (AppError.mk "Failed to authenticate token") ∧
    (jwttokenVerify (mkConfig none) 0 ['x']).1
      = Except.error (AppError.mk "Failed to authenticate token") :=
  ⟨rfl, rfl⟩

/-- C3 (amended): each operation does catch every internal failure and
re-raise a single normalized error, but the two operations raise the
identical error value, so there are not two caller-distinguishable error
kinds: any error raised by `sign` equals any error raised by `verify`. -/
theorem c3_single_error_kind (cfg1 cfg2 : Config) (now1 now2 : Int)
    (p : Payload) (tok : List Char) (e1 e2 : AppError)
    (h1 : (jwttokenSign cfg1 now1 p).1 = .error e1)
    (h2 : (jwttokenVerify cfg2 now2 tok).1 = .error e2) :
    e1 = e2 := by
  have he1 : e1 = authFailError := by
    unfold jwttokenSign at h1
    cases hs : jwtSign cfg1.secret now1 JWT_EXPIRES_IN p with
    | ok t => rw [hs] at h1; exact absurd h1 (by simp)
    | error e => rw [hs] at h1; simpa using h1.symm
  have he2 : e2 = authFailError := by
    unfold jwttokenVerify at h2
    cases hv : jwtVerify cfg2.secret now2 tok with
    | ok q => rw [hv] at h2; exact absurd h2 (by simp)
    | error e => rw [hv] at h2; simpa using h2.symm
  rw [he1, he2]

/-- C3 witness: the amended statement applied to a concrete failing `sign`
and a concrete failing `verify`. -/
theorem c3_single_error_kind_witness : (authFailError : AppError) = authFailError :=
  c3_single_error_kind (mkConfig none) (mkConfig none) 0 0
    [("exp", JVal.num 0)] ['x'] authFailError authFailError rfl rfl

/-- A wrapper invocation observed together with the process-wide log sink
it appends to: the operation's result plus the updated sink contents. -/
def runSign (cfg : Config) (sink : List LogEntry) (now : Int) (p : Payload) :
    Except AppError (List Char) × List LogEntry :=
  ((jwttokenSign cfg now p).1, sink ++ (jwttokenSign cfg now p).2)

/-- Verification observed together with the process-wide log sink. -/
def runVerify (cfg : Config) (sink : List LogEntry) (now : Int) (tok : List Char) :
    Except AppError Payload × List LogEntry :=
  ((jwttokenVerify cfg now tok).1, sink ++ (jwttokenVerify cfg now tok).2)

/-- C6 counterexample: the operations are not pure functions of input plus
secret and expiry constant alone, because they also read the clock: `sign`
applied twice to the very same payload, at clock instants 0 and 5, returns
two different token strings (the stamped `iat`/`exp` differ), and `verify`
applied twice to the very same token succeeds at instant 0 but fails at
instant 86400. -/
theorem c6_purity_counterexample :
    (jwttokenSign (Config.mk ['k']) 0 []).1 ≠ (jwttokenSign (Config.mk ['k']) 5 []).1 ∧
    ((jwttokenVerify (Config.mk ['k']) 0 (signedToken (Config.mk ['k']) 0 [])).1).isOk
      = true ∧
    ((jwttokenVerify (Config.mk ['k']) 86400 (signedToken (Config.mk ['k']) 0 [])).1).isOk
      = false := by
  refine ⟨?_, rfl, rfl⟩
  intro h
  rw [jwttokenSign_ok _ 0 [] (by decide), jwttokenSign_ok _ 5 [] (by decide)] at h
  have h' : signedToken (Config.mk ['k']) 0 [] = signedToken (Config.mk ['k']) 5 [] := by
    simpa using h
  exact absurd h' (by decide)

/-- C6 (amended): under a fixed configuration, `sign` and `verify` are pure
functions of their input, the clock instant, and the immutable
configuration: their results do not depend on the state of the log sink
(the only mutable state they touch), and repeating an invocation on equal
inputs at the same instant — including immediately after any earlier
invocation has appended to the sink — yields the same result.  The clock
must be counted among the inputs: `c6_purity_counterexample` shows the
results genuinely change with it. -/
theorem c6_purity (cfg : Config) (w1 w2 : List LogEntry) (now : Int)
    (p : Payload) (tok : List Char) :
    (runSign cfg w1 now p).1 = (runSign cfg w2 now p).1 ∧
    (runVerify cfg w1 now tok).1 = (runVerify cfg w2 now tok).1 ∧
    (runSign cfg (runSign cfg w1 now p).2 now p).1 = (runSign cfg w1 now p).1 ∧
    (runVerify cfg (runVerify cfg w1 now tok).2 now tok).1
      = (runVerify cfg w1 now tok).1 :=
  ⟨rfl, rfl, rfl, rfl⟩

/-- C8: on a successful invocation, neither operation emits any log entry;
on a failing invocation, each emits exactly one error-level entry whose
message is the fixed static string and whose attached cause is the
underlying library error. -/
theorem c8_failure_logging (cfg : Config) (now nowV : Int) (p : Payload)
    (tok : List Char) :
    (((jwttokenSign cfg now p).1).isOk = true → (jwttokenSign cfg now p).2 = []) ∧
    (∀ e, (jwttokenSign cfg now p).1 = .error e →
      ∃ cause, (jwttokenSign cfg now p).2
        = [LogEntry.mk "error" failLogMsg cause]) ∧
    (((jwttokenVerify cfg nowV tok).1).isOk = true →
      (jwttokenVerify cfg nowV tok).2 = []) ∧
    (∀ e, (jwttokenVerify cfg nowV tok).1 = .error e →
      ∃ cause, (jwttokenVerify cfg nowV tok).2
        = [LogEntry.mk "error" failLogMsg cause]) := by
  unfold jwttokenSign jwttokenVerify
  cases hs : jwtSign cfg.secret now JWT_EXPIRES_IN p with
  | ok t =>
    cases hv : jwtVerify cfg.secret nowV tok with
    | ok q =>
      exact ⟨fun _ => rfl, fun e he => absurd he (by simp),
        fun _ => rfl, fun e he => absurd he (by simp)⟩
    | error ev =>
      exact ⟨fun _ => rfl, fun e he => absurd he (by simp),
        fun hok => absurd hok (by simp [Except.isOk, Except.toBool]), fun e _ => ⟨ev, rfl⟩⟩
  | error es =>
    cases hv : jwtVerify cfg.secret nowV tok with
    | ok q =>
      exact ⟨fun hok => absurd hok (by simp [Except.isOk, Except.toBool]), fun e _ => ⟨es, rfl⟩,
        fun _ => rfl, fun e he => absurd he (by simp)⟩
    | error ev =>
      exact ⟨fun hok => absurd hok (by simp [Except.isOk, Except.toBool]), fun e _ => ⟨es, rfl⟩,
        fun hok => absurd hok (by simp [Except.isOk, Except.toBool]), fun e _ => ⟨ev, rfl⟩⟩

/-- C8 witness: a successful `sign` emits no log entry; a failing `verify`
emits exactly one error-level entry with the static message and a cause. -/
theorem c8_failure_logging_witness :
    (jwttokenSign (mkConfig none) 0 []).2 = [] ∧
    ∃ cause, (jwttokenVerify (mkConfig none) 0 ['x']).2
      = [LogEntry.mk "error" failLogMsg cause] :=
  ⟨(c8_failure_logging (mkConfig none) 0 0 [] ['x']).1 rfl,
   (c8_failure_logging (mkConfig none) 0 0 [] ['x']).2.2.2 authFailError rfl⟩

/-- C10: every error either operation surfaces is the one plain error value
constructed from the fixed message string; the `AppError` type carries no
cause field (a plain JS `Error` built from a message), so the underlying
library error is observable only through the log side channel (theorem
`c8_failure_logging`), never through the surfaced error value. -/
theorem c10_surfaced_error_is_fixed (cfg : Config) (now nowV : Int)
    (p : Payload) (tok : List Char) (e : AppError)
    (h : (jwttokenSign cfg now p).1 = .error e
       ∨ (jwttokenVerify cfg nowV tok).1 = .error e) :
    e = AppError.mk "Failed to authenticate token" := by
  rcases h with h | h
  · unfold jwttokenSign at h
    cases hs : jwtSign cfg.secret now JWT_EXPIRES_IN p with
    | ok t => rw [hs] at h; exact absurd h (by simp)
    | error es => rw [hs] at h; simpa using h.symm
  · unfold jwttokenVerify at h
    cases hv : jwtVerify cfg.secret nowV tok with
    | ok q => rw [hv] at h; exact absurd h (by simp)
    | error ev => rw [hv] at h; simpa using h.symm

/-- C10 witness: the fixed surfaced error at a concrete failing `verify`. -/
theorem c10_surfaced_error_is_fixed_witness :
    (authFailError : AppError) = AppError.mk "Failed to authenticate token" :=
  c10_surfaced_error_is_fixed (mkConfig none) 0 0 [] ['x'] authFailError
    (Or.inr rfl)

end Acq
